import Mathlib

/-!
Verification of the Wan2GP prompt-library plugin.

The development embeds the prompt-library plugin (`plugins/wan2gp-prompt-library/plugin.py`)
as executable Lean definitions.  Text is modelled as `String` (lists of characters),
JSON values as a small inductive type, and the persisted prompt-library document as a
structure of collections and records.  Operations of the `PromptLibrary` class itself,
whose source file is not part of the sources, are modelled from the specification and
marked as such in their doc comments.
-/

set_option maxHeartbeats 1000000
set_option linter.unnecessarySimpa false

/-! ## Character-list utilities -/

/-- Python's notion of a whitespace character, restricted to the ASCII ones. -/
def ws (c : Char) : Bool := c.isWhitespace

/-- Python `str.strip` on a list of characters: drop whitespace from both ends. -/
def trimChars (s : List Char) : List Char :=
  ((s.dropWhile ws).reverse.dropWhile ws).reverse

/-- Python `str.strip` on strings. -/
def strip (s : String) : String := String.mk (trimChars s.data)

/-- Python `str.split(",")`: split a character list at every comma. -/
def splitOnComma : List Char → List (List Char)
  | [] => [[]]
  | c :: rest =>
    match splitOnComma rest with
    | [] => [[]]
    | h :: t => if c = ',' then [] :: h :: t else (c :: h) :: t

/-- Boolean list-prefix test. -/
def isPre : List Char → List Char → Bool
  | [], _ => true
  | _ :: _, [] => false
  | a :: as, b :: bs => (a == b) && isPre as bs

/-- Python `str.replace(p, r)`: replace every non-overlapping occurrence of `p`,
scanning left to right and not rescanning the replacement text.
Structured with explicit fuel so that it is structurally recursive. -/
def replaceCharsAux (p r : List Char) : Nat → List Char → List Char
  | 0, s => s
  | _ + 1, [] => []
  | fuel + 1, c :: rest =>
    match p with
    | [] => c :: replaceCharsAux p r fuel rest
    | q :: qs =>
      if isPre (q :: qs) (c :: rest) then r ++ replaceCharsAux p r fuel (rest.drop qs.length)
      else c :: replaceCharsAux p r fuel rest

/-- Python `str.replace(p, r)` on character lists. -/
def replaceChars (p r s : List Char) : List Char := replaceCharsAux p r s.length s

/-! ## Generic association-list helpers (model of Python `dict`) -/

/-- First-match lookup in an association list. -/
def lookupA {α β : Type} [DecidableEq α] : List (α × β) → α → Option β
  | [], _ => none
  | p :: ps, k => if p.1 = k then some p.2 else lookupA ps k

/-- Boolean key-membership test. -/
def hasKey {α β : Type} [DecidableEq α] (m : List (α × β)) (k : α) : Bool :=
  m.any (fun p => decide (p.1 = k))

/-- Python `dict` assignment `m[k] = v`: update the value in place when the key
is present (keeping its insertion position), append otherwise. -/
def updateA {α β : Type} [DecidableEq α] (m : List (α × β)) (k : α) (v : β) : List (α × β) :=
  if hasKey m k then m.map (fun p => if p.1 = k then (k, v) else p) else m ++ [(k, v)]

/-- Left-biased choice on options. -/
def optOr {β : Type} (a b : Option β) : Option β :=
  match a with
  | some v => some v
  | none => b

/-! ## Variable substitution (`PromptLibraryPlugin._substitute_variables`) -/

/-- One chunk of the variable string: the chunk is stripped, and when it contains `=`
it is split at the first `=` into a stripped key and a stripped value
(`key, value = pair.split("=", 1)` followed by `.strip()` on both). -/
def parsePair (chunk : List Char) : Option (List Char × List Char) :=
  let ch := trimChars chunk
  if '=' ∈ ch then
    some (trimChars (ch.takeWhile (fun d => !(d == '='))),
          trimChars ((ch.dropWhile (fun d => !(d == '='))).tail))
  else none

/-- All parsed `key=value` pairs of the comma-separated variable string, in order. -/
def parsePairs (chunks : List (List Char)) : List (List Char × List Char) :=
  chunks.filterMap parsePair

/-- The Python `dict` built by `_substitute_variables`: the parsed pairs are inserted in
order, a duplicate key keeping its first position but receiving the later value. -/
def parseVariables (variable_string : String) : List (List Char × List Char) :=
  (parsePairs (splitOnComma variable_string.data)).foldl (fun m kv => updateA m kv.1 kv.2) []

/-- The method `PromptLibraryPlugin._substitute_variables`, embedded from the source: return the
prompt unchanged when the variable string is empty or all whitespace, otherwise parse the
variables and for each parsed key replace every occurrence of the braced key with its
value, sequentially, one key at a time. -/
def substitute_variables (prompt variable_string : String) : String :=
  if trimChars variable_string.data = [] then prompt
  else String.mk ((parseVariables variable_string).foldl
    (fun acc kv => replaceChars ('{' :: (kv.1 ++ ['}'])) kv.2 acc) prompt.data)

/-- Modelled from the spec: simultaneous, single-pass substitution — "replace every
braced-key occurrence in the template with the corresponding value; keys with no supplied
value are left as literal braced text unchanged".  The template is scanned once; a
placeholder is an opening brace, a run of non-brace characters, and a closing brace, and
the inserted values are not rescanned. -/
def scanSubstAux (m : List (List Char × List Char)) : Nat → List Char → List Char
  | 0, s => s
  | _ + 1, [] => []
  | fuel + 1, c :: rest =>
    if c = '{' then
      match rest.drop (rest.takeWhile (fun d => !(d == '{') && !(d == '}'))).length with
      | '}' :: after =>
        (match lookupA m (rest.takeWhile (fun d => !(d == '{') && !(d == '}'))) with
         | some v => v
         | none => '{' :: (rest.takeWhile (fun d => !(d == '{') && !(d == '}')) ++ ['}'])) ++
        scanSubstAux m fuel after
      | _ => c :: scanSubstAux m fuel rest
    else c :: scanSubstAux m fuel rest

/-- Modelled from the spec: the simultaneous reading of variable substitution, used to
compare the source's sequential implementation against the claim's wording. -/
def specSubstitute (prompt variable_string : String) : String :=
  if trimChars variable_string.data = [] then prompt
  else String.mk (scanSubstAux (parseVariables variable_string) prompt.data.length prompt.data)

/-! ## Template segments: well-formed templates for the amended substitution claim -/

/-- A template segment: literal text or a braced placeholder name. -/
inductive Seg where
  | lit : List Char → Seg
  | ph : List Char → Seg

/-- The template text denoted by a list of segments. -/
def segsText : List Seg → List Char
  | [] => []
  | Seg.lit s :: rest => s ++ segsText rest
  | Seg.ph n :: rest => '{' :: (n ++ '}' :: segsText rest)

/-- A character list mentioning neither brace. -/
def braceFree (s : List Char) : Prop := '{' ∉ s ∧ '}' ∉ s

instance (s : List Char) : Decidable (braceFree s) := by
  unfold braceFree
  infer_instance

/-- Well-formed segments: literals and placeholder names are brace-free. -/
def wfSegs (segs : List Seg) : Prop :=
  ∀ sg ∈ segs, match sg with
  | Seg.lit s => braceFree s
  | Seg.ph n => braceFree n

/-- Simultaneous rendering of a segment list under a mapping: placeholders with a supplied
value are replaced by it, the others are kept as literal braced text. -/
def renderSegs (m : List (List Char × List Char)) : List Seg → List Char
  | [] => []
  | Seg.lit s :: rest => s ++ renderSegs m rest
  | Seg.ph n :: rest =>
    (match lookupA m n with
     | some v => v
     | none => '{' :: (n ++ ['}'])) ++ renderSegs m rest

/-- Replace the placeholders named `k` by the literal value `v`. -/
def substSeg (k v : List Char) (sg : Seg) : Seg :=
  match sg with
  | Seg.ph n => if n = k then Seg.lit v else Seg.ph n
  | sg => sg

/-- Modelled from the spec's words: the mapping in which "the last occurrence of a
duplicate key wins" — the value associated to `k` is the trimmed value of the last
comma-separated pair whose trimmed key is `k`. -/
def lastWins (variable_string : String) (k : List Char) : Option (List Char) :=
  lookupA (parsePairs (splitOnComma variable_string.data)).reverse k

/-! ## JSON values and the prompt-library document -/

/-- A scalar value stored in a settings mapping. -/
inductive JVal where
  | s : String → JVal
  | n : Int → JVal
  | b : Bool → JVal
deriving DecidableEq

/-- A generation-settings mapping (Python dict of parameter name to value). -/
abbrev Settings := List (String × JVal)

/-- A saved prompt record, as persisted by the library
(`negative_prompt` is the empty string when absent; timestamps are abstract numbers). -/
structure PromptRecord where
  id : String
  name : String
  prompt : String
  negative_prompt : String
  tags : List String
  settings : Settings
  use_count : Nat
  created_at : Nat
  updated_at : Nat
deriving DecidableEq

/-- A named collection of prompt records. -/
structure Collection where
  id : String
  name : String
  prompts : List PromptRecord
deriving DecidableEq

/-- The persisted prompt-library document: the ordered collections and the favorites
id list, as in the persistence format. -/
structure Library where
  collections : List Collection
  favorites : List String
deriving DecidableEq

/-- Modelled from the spec: `list_collections() -> ordered sequence of (display_name,
id)` — the `PromptLibrary.get_collection_names` read used by the plugin (`library.py`
is not among the sources). -/
def get_collection_names (lib : Library) : List (String × String) :=
  lib.collections.map (fun c => (c.name, c.id))

/-- Modelled from the spec: `get_prompt(id) -> record | not-found`, a pure read across
all collections in order. -/
def get_prompt (lib : Library) (id : String) : Option PromptRecord :=
  lib.collections.findSome? (fun c => c.prompts.find? (fun r => r.id == id))

/-- The collection with the given id, if any. -/
def getCollection (lib : Library) (cid : String) : Option Collection :=
  lib.collections.find? (fun c => c.id == cid)

/-- All record ids of the document, in order. -/
def allIds (lib : Library) : List String :=
  lib.collections.foldr (fun c acc => c.prompts.map (fun r => r.id) ++ acc) []

/-- Total number of records in the document. -/
def totalRecords (lib : Library) : Nat :=
  lib.collections.foldr (fun c n => c.prompts.length + n) 0

/-! ## Collection deletion (claim C4) -/

/-- Modelled from the spec: `delete_collection(id) -> success` — fails (changing
nothing) if the id is the reserved "favorites" or does not exist, otherwise removes the
collection with all its records. -/
def delete_collection (lib : Library) (cid : String) : Bool × Library :=
  if cid = "favorites" then (false, lib)
  else
    match getCollection lib cid with
    | none => (false, lib)
    | some _ =>
      (true, { lib with collections := lib.collections.filter (fun c => !(c.id == cid)) })

/-- The method `PromptLibraryPlugin._extract_collection_id`, embedded from the source: scan the
(display name, id) pairs and return the id paired with the first matching display name. -/
def extract_collection_id (lib : Library) (display : String) : Option String :=
  ((get_collection_names lib).find? (fun p => p.1 == display)).map (fun p => p.2)

/-- The method `PromptLibraryPlugin._delete_collection`, embedded from the source: resolve the
display name, report failure for unknown names and for the favorites collection without
touching the library, otherwise delegate to the library's delete; the Bool is the
success reported by the status message. -/
def delete_collection_handler (lib : Library) (display : String) : Bool × Library :=
  match extract_collection_id lib display with
  | none => (false, lib)
  | some cid =>
    if cid = "favorites" then (false, lib)
    else delete_collection lib cid

/-! ## Favorites (claim C6) -/

/-- Modelled from the spec: `is_in_favorites(id) -> bool`, a pure read of the favorites
id list. -/
def is_in_favorites (lib : Library) (id : String) : Bool := decide (id ∈ lib.favorites)

/-- Modelled from the spec: `add_to_favorites(id) -> success` — adding an
already-favorited id reports failure and changes nothing. -/
def add_to_favorites (lib : Library) (id : String) : Bool × Library :=
  if id ∈ lib.favorites then (false, lib)
  else (true, { lib with favorites := lib.favorites ++ [id] })

/-- Modelled from the spec: `remove_from_favorites(id) -> success` — removing a
non-favorited id reports failure and changes nothing. -/
def remove_from_favorites (lib : Library) (id : String) : Bool × Library :=
  if id ∈ lib.favorites then (true, { lib with favorites := lib.favorites.erase id })
  else (false, lib)

/-! ## Usage tracking (claim C7) -/

/-- A record with its usage counter incremented and its update timestamp refreshed. -/
def bumpRecord (r : PromptRecord) (now : Nat) : PromptRecord :=
  { r with use_count := r.use_count + 1, updated_at := now }

/-- Increment the first record with the given id in a record list. -/
def bumpUsage (id : String) (now : Nat) : List PromptRecord → List PromptRecord
  | [] => []
  | r :: rs => if r.id = id then bumpRecord r now :: rs else r :: bumpUsage id now rs

/-- Increment the matching record of the first collection containing the id. -/
def bumpCollections (id : String) (now : Nat) : List Collection → List Collection
  | [] => []
  | c :: cs =>
    if (c.prompts.find? (fun r => r.id == id)).isSome then
      { c with prompts := bumpUsage id now c.prompts } :: cs
    else c :: bumpCollections id now cs

/-- Modelled from the spec: `record_usage(id)` — increments `use_count` by 1 and updates
`updated_at` for a known id, and is a no-op (not an error) for an unknown id; the
current time is a parameter. -/
def record_usage (lib : Library) (id : String) (now : Nat) : Library :=
  { lib with collections := bumpCollections id now lib.collections }

/-! ## Saving prompts (claim C5) -/

/-- Tag parsing in `_save_current_prompt`: split the tag string on commas, strip each
piece, keep the non-empty ones. -/
def parseTags (tags_str : String) : List String :=
  ((splitOnComma tags_str.data).map (fun t => trimChars t)).filterMap
    (fun t => if t = [] then none else some (String.mk t))

/-- Python `settings.get(k, "")` when a string is expected. -/
def getStr (st : Settings) (k : String) : String :=
  match lookupA st k with
  | some (JVal.s v) => v
  | _ => ""

/-- The generation keys captured by `_save_current_prompt` when "include settings" is
checked. -/
def settingsToSave : List String :=
  ["model_type", "resolution", "steps", "guidance_scale", "num_frames", "fps", "seed",
   "sampler"]

/-- Settings capture in `_save_current_prompt`: the listed generation keys present in
the current settings, plus the LoRA settings when present. -/
def captureSettings (st : Settings) (include_settings : Bool) : Settings :=
  if include_settings then
    (settingsToSave.foldl (fun acc k =>
      match lookupA st k with
      | some v => acc ++ [(k, v)]
      | none => acc) []) ++
    (match lookupA st "loras" with
     | some v => [("loras", v)]
     | none => [])
  else []

/-- Modelled from the spec: `add_prompt(collection_id, name, prompt, negative_prompt,
tags, settings) -> id | failure` — fails (changing nothing) if the collection is unknown
or name/prompt are empty after trimming whitespace; otherwise appends a record with
`use_count = 0` and both timestamps stamped.  The fresh id and the current time are
parameters, since their generation is not algorithmic. -/
def add_prompt (lib : Library) (newId : String) (now : Nat)
    (collection_id name prompt negative_prompt : String) (tags : List String)
    (settings : Settings) : Option (String × Library) :=
  if strip name = "" ∨ strip prompt = "" then none
  else
    let newRec : PromptRecord :=
      { id := newId, name := name, prompt := prompt, negative_prompt := negative_prompt,
        tags := tags, settings := settings, use_count := 0, created_at := now,
        updated_at := now }
    match getCollection lib collection_id with
    | none => none
    | some _ =>
      some (newId, { lib with collections := lib.collections.map (fun c =>
        if c.id = collection_id then { c with prompts := c.prompts ++ [newRec] }
        else c) })

/-- The method `PromptLibraryPlugin._save_current_prompt`, embedded from the source: refuse a blank
name; fall back to the host settings for an empty prompt input (and then for an empty
negative prompt input); refuse an empty effective prompt; then delegate to the library's
`add_prompt` with the stripped name, the parsed tags, and the captured settings,
reporting its success. -/
def save_current_prompt (lib : Library) (hostSettings : Settings) (newId : String)
    (now : Nat) (name collection prompt_input negative_input tags_str : String)
    (include_settings : Bool) : Bool × Library :=
  if strip name = "" then (false, lib)
  else
    let prompt1 := if prompt_input = "" then getStr hostSettings "prompt" else prompt_input
    let negative1 :=
      if prompt_input = "" then
        (if negative_input = "" then getStr hostSettings "negative_prompt"
         else negative_input)
      else negative_input
    if prompt1 = "" then (false, lib)
    else
      match add_prompt lib newId now collection (strip name) prompt1 negative1
          (parseTags tags_str) (captureSettings hostSettings include_settings) with
      | some (_, lib') => (true, lib')
      | none => (false, lib)

/-! ## Import (claim C3) -/

/-- A self-contained collection document, as produced by export and consumed by
import: the collection id, its display name, and its records. -/
structure ImportDoc where
  id : String
  name : String
  prompts : List PromptRecord

/-- Modelled from the spec: id-collision resolution on merge — an incoming record whose
id is already used in the document receives the next id from the fresh-id supply,
the others keep theirs. -/
def reassignRecords (existing : List String) (fresh : Nat → String) :
    Nat → List PromptRecord → List PromptRecord
  | _, [] => []
  | n, r :: rs =>
    if r.id ∈ existing then
      { r with id := fresh n } :: reassignRecords existing fresh (n + 1) rs
    else r :: reassignRecords existing fresh n rs

/-- Modelled from the spec: `import_collection(document, merge) -> success` — with merge
true and an existing collection of the same id, append the incoming records with id
collisions resolved by fresh ids; with merge false replace the collection entirely;
create the collection when absent.  The fresh-id supply is a parameter since id
generation is not algorithmic. -/
def import_collection (lib : Library) (doc : ImportDoc) (merge : Bool)
    (fresh : Nat → String) : Bool × Library :=
  match getCollection lib doc.id with
  | some _ =>
    if merge then
      (true, { lib with collections := lib.collections.map (fun c =>
        if c.id = doc.id then
          { c with
            prompts := c.prompts ++ reassignRecords (allIds lib) fresh 0 doc.prompts }
        else c) })
    else
      (true, { lib with collections := lib.collections.map (fun c =>
        if c.id = doc.id then { c with name := doc.name, prompts := doc.prompts }
        else c) })
  | none =>
    (true, { lib with collections :=
      lib.collections ++ [Collection.mk doc.id doc.name doc.prompts] })

/-! ## Gallery query (claim C2) -/

/-- Python `str.lower()` on a character list. -/
def lower (s : List Char) : List Char := s.map Char.toLower

/-- Boolean substring test: some tail of the haystack starts with the needle. -/
def isSubstr (needle hay : List Char) : Bool := hay.tails.any (fun t => isPre needle t)

/-- The needle occurs contiguously inside the haystack. -/
def SubstrOf (needle hay : List Char) : Prop := ∃ l r, hay = l ++ needle ++ r

/-- Modelled from the spec: a record matches the gallery query when the search string,
if non-empty, occurs case-insensitively as a substring of its name or prompt, and its
tag set contains every filter tag (AND semantics). -/
def matches_query (r : PromptRecord) (search : String) (tags : List String) : Bool :=
  (search == "" || isSubstr (lower search.data) (lower r.name.data) ||
    isSubstr (lower search.data) (lower r.prompt.data)) &&
  tags.all (fun t => r.tags.contains t)

/-- Stable descending insertion by `updated_at`: the new record goes after the strictly
more recent ones and before any tie. -/
def insertDesc (r : PromptRecord) : List PromptRecord → List PromptRecord
  | [] => [r]
  | x :: xs => if x.updated_at > r.updated_at then x :: insertDesc r xs else r :: x :: xs

/-- Stable sort, most recently updated first, ties kept in insertion order. -/
def sortByUpdatedDesc (l : List PromptRecord) : List PromptRecord :=
  l.foldr insertDesc []

/-- Modelled from the spec: `get_prompts_in_collection(collection_id, search, tags)` —
the records of the collection matching the query, most-recently-updated first, ties in
insertion order. -/
def get_prompts_in_collection (lib : Library) (cid : String) (search : String)
    (tags : List String) : List PromptRecord :=
  match getCollection lib cid with
  | none => []
  | some c => sortByUpdatedDesc (c.prompts.filter (fun r => matches_query r search tags))

/-! ## Applying a saved prompt to the host settings (claims C9 and C10) -/

/-- The settings mutation performed by `_use_prompt_only`, embedded from the source:
write the substituted prompt, and overwrite the negative prompt only when the record
carries a non-empty one. -/
def use_prompt_only_settings (settings : Settings) (rec : PromptRecord)
    (vars : String) : Settings :=
  let s1 := updateA settings "prompt" (JVal.s (substitute_variables rec.prompt vars))
  if rec.negative_prompt ≠ "" then
    updateA s1 "negative_prompt" (JVal.s rec.negative_prompt)
  else s1

/-- The saved-settings loop of `_use_with_settings`, embedded from the source: each
saved key overwrites the current value only when the key is already present. -/
def applySaved (saved : Settings) (st : Settings) : Settings :=
  saved.foldl (fun st kv => if hasKey st kv.1 then updateA st kv.1 kv.2 else st) st

/-- The settings mutation performed by `_use_with_settings`, embedded from the source:
the same prompt and negative-prompt writes as `_use_prompt_only`, then the
saved-settings loop. -/
def use_with_settings_update (settings : Settings) (rec : PromptRecord)
    (vars : String) : Settings :=
  applySaved rec.settings (use_prompt_only_settings settings rec vars)

/-! ## Theorems -/

theorem replaceCharsAux_fuel (p r : List Char) :
    ∀ f1 f2 s, s.length ≤ f1 → s.length ≤ f2 →
      replaceCharsAux p r f1 s = replaceCharsAux p r f2 s := by
  intro f1
  induction f1 with
  | zero =>
    intro f2 s h1 _
    have hs : s = [] := List.eq_nil_of_length_eq_zero (Nat.le_zero.mp h1)
    subst hs
    cases f2 <;> rfl
  | succ f ih =>
    intro f2 s h1 h2
    cases s with
    | nil => cases f2 <;> rfl
    | cons c rest =>
      cases f2 with
      | zero => exact absurd h2 (by simp)
      | succ g =>
        simp only [replaceCharsAux]
        cases p with
        | nil =>
          have := ih g rest (Nat.le_of_succ_le_succ h1) (Nat.le_of_succ_le_succ h2)
          simp [this]
        | cons q qs =>
          by_cases hm : isPre (q :: qs) (c :: rest) = true
          · have hlen : (rest.drop qs.length).length ≤ f :=
              Nat.le_trans (by simpa using List.length_drop_le qs.length rest)
                (Nat.le_of_succ_le_succ h1)
            have hlen2 : (rest.drop qs.length).length ≤ g :=
              Nat.le_trans (by simpa using List.length_drop_le qs.length rest)
                (Nat.le_of_succ_le_succ h2)
            simp [hm, ih g _ hlen hlen2]
          · have := ih g rest (Nat.le_of_succ_le_succ h1) (Nat.le_of_succ_le_succ h2)
            simp [hm, this]

theorem replaceCharsAux_eq (p r : List Char) (fuel : Nat) (s : List Char)
    (h : s.length ≤ fuel) : replaceCharsAux p r fuel s = replaceChars p r s :=
  replaceCharsAux_fuel p r fuel s.length s h (Nat.le_refl _)

theorem replaceChars_nil (p r : List Char) : replaceChars p r [] = [] := rfl

theorem replaceChars_cons_match (q c : Char) (qs rest r : List Char)
    (h : isPre (q :: qs) (c :: rest) = true) :
    replaceChars (q :: qs) r (c :: rest) = r ++ replaceChars (q :: qs) r (rest.drop qs.length) := by
  have hlen : (rest.drop qs.length).length ≤ rest.length := by
    simp [List.length_drop]
  simp only [replaceChars, List.length_cons, replaceCharsAux, h, if_true]
  rw [replaceCharsAux_eq _ _ _ _ hlen]
  rfl

theorem replaceChars_cons_nomatch (q c : Char) (qs rest r : List Char)
    (h : isPre (q :: qs) (c :: rest) = false) :
    replaceChars (q :: qs) r (c :: rest) = c :: replaceChars (q :: qs) r rest := by
  simp [replaceChars, replaceCharsAux, h]

theorem lookupA_append {α β : Type} [DecidableEq α] (m1 m2 : List (α × β)) (k : α) :
    lookupA (m1 ++ m2) k = optOr (lookupA m1 k) (lookupA m2 k) := by
  induction m1 with
  | nil => simp [lookupA, optOr]
  | cons p ps ih =>
    by_cases h : p.1 = k
    · simp [lookupA, h, optOr]
    · simp [lookupA, h, ih]

theorem lookupA_eq_none_of_hasKey_false {α β : Type} [DecidableEq α]
    (m : List (α × β)) (k : α) (h : hasKey m k = false) : lookupA m k = none := by
  induction m with
  | nil => rfl
  | cons p ps ih =>
    simp only [hasKey, List.any_cons, Bool.or_eq_false_iff, decide_eq_false_iff_not] at h
    simp [lookupA, h.1, ih (by simp [hasKey, h.2])]

theorem lookupA_map_update_self {α β : Type} [DecidableEq α]
    (m : List (α × β)) (k : α) (v : β) (h : hasKey m k = true) :
    lookupA (m.map (fun p => if p.1 = k then (k, v) else p)) k = some v := by
  induction m with
  | nil => simp [hasKey] at h
  | cons p ps ih =>
    by_cases hp : p.1 = k
    · simp [lookupA, hp]
    · have h' : hasKey ps k = true := by
        simp only [hasKey, List.any_cons, Bool.or_eq_true_iff, decide_eq_true_eq] at h
        rcases h with h | h
        · exact absurd h hp
        · simpa [hasKey] using h
      simp [lookupA, hp, ih h']

theorem lookupA_map_update_ne {α β : Type} [DecidableEq α]
    (m : List (α × β)) (k k' : α) (v : β) (hk : k' ≠ k) :
    lookupA (m.map (fun p => if p.1 = k then (k, v) else p)) k' = lookupA m k' := by
  induction m with
  | nil => rfl
  | cons p ps ih =>
    by_cases hp : p.1 = k
    · have : ¬ (k = k') := fun h => hk h.symm
      simp [lookupA, hp, this, ih]
    · by_cases hp' : p.1 = k'
      · simp [lookupA, hp, hp', hk]
      · simp [lookupA, hp, hp', ih]

theorem lookupA_update {α β : Type} [DecidableEq α] (m : List (α × β)) (k k' : α) (v : β) :
    lookupA (updateA m k v) k' = if k' = k then some v else lookupA m k' := by
  by_cases hk : k' = k
  · subst hk
    by_cases h : hasKey m k'
    · simp [updateA, h, lookupA_map_update_self m k' v h]
    · have hnone : lookupA m k' = none :=
        lookupA_eq_none_of_hasKey_false m k' (by simpa using h)
      simp [updateA, h, lookupA_append, hnone, optOr, lookupA]
  · by_cases h : hasKey m k
    · simp [updateA, h, lookupA_map_update_ne m k k' v hk, hk]
    · have : ¬ (k = k') := fun hkk => hk hkk.symm
      simp [updateA, h, lookupA_append, hk, lookupA, this, optOr]
      cases lookupA m k' <;> simp

theorem hasKey_map_update {α β : Type} [DecidableEq α] (m : List (α × β)) (k k' : α) (v : β) :
    hasKey (m.map (fun p => if p.1 = k then (k, v) else p)) k' = hasKey m k' := by
  induction m with
  | nil => rfl
  | cons p ps ih =>
    have hfst : ((if p.1 = k then (k, v) else p) : α × β).1 = p.1 := by
      by_cases hp : p.1 = k <;> simp [hp]
    simp only [hasKey, List.map_cons, List.any_cons] at ih ⊢
    rw [hfst, ih]

theorem hasKey_update_present {α β : Type} [DecidableEq α]
    (m : List (α × β)) (k k' : α) (v : β) (h : hasKey m k = true) :
    hasKey (updateA m k v) k' = hasKey m k' := by
  simp [updateA, h, hasKey_map_update]

/-! ## Lemmas about prefix tests and replacement over well-formed templates -/

theorem isPre_append_self : ∀ (p t : List Char), isPre p (p ++ t) = true
  | [], _ => rfl
  | a :: as, t => by simp [isPre, isPre_append_self as t]

theorem isPre_head_ne (a b : Char) (as bs : List Char) (h : a ≠ b) :
    isPre (a :: as) (b :: bs) = false := by
  simp [isPre, h]

theorem braceFree_cons {c : Char} {s : List Char} (h : braceFree (c :: s)) :
    braceFree s ∧ c ≠ '{' ∧ c ≠ '}' := by
  obtain ⟨h1, h2⟩ := h
  simp only [List.mem_cons, not_or] at h1 h2
  exact ⟨⟨h1.2, h2.2⟩, fun hc => h1.1 hc.symm, fun hc => h2.1 hc.symm⟩

theorem isPre_pat_ph : ∀ (k n rest : List Char), braceFree k → braceFree n →
    isPre (k ++ ['}']) (n ++ '}' :: rest) = true → k = n := by
  intro k
  induction k with
  | nil =>
    intro n rest _ hn h
    cases n with
    | nil => rfl
    | cons d n' =>
      exfalso
      simp only [List.nil_append, List.cons_append, isPre, Bool.and_eq_true, beq_iff_eq] at h
      exact hn.2 (by rw [← h.1]; exact List.mem_cons_self _ _)
  | cons a k' ih =>
    intro n rest hk hn h
    cases n with
    | nil =>
      exfalso
      simp only [List.cons_append, List.nil_append, isPre, Bool.and_eq_true, beq_iff_eq] at h
      exact hk.2 (by rw [h.1] at *; exact List.mem_cons_self _ _)
    | cons d n' =>
      simp only [List.cons_append, isPre, Bool.and_eq_true, beq_iff_eq] at h
      obtain ⟨had, hrest⟩ := h
      have hk' := (braceFree_cons hk).1
      have hn' := (braceFree_cons hn).1
      rw [had, ih n' rest hk' hn' hrest]

theorem replaceChars_skip (kk v : List Char) :
    ∀ (s : List Char), '{' ∉ s → ∀ rest,
      replaceChars ('{' :: kk) v (s ++ rest) = s ++ replaceChars ('{' :: kk) v rest := by
  intro s
  induction s with
  | nil => intro _ rest; rfl
  | cons c cs ih =>
    intro hmem rest
    simp only [List.mem_cons, not_or] at hmem
    have hne : ('{' : Char) ≠ c := hmem.1
    rw [List.cons_append, replaceChars_cons_nomatch _ _ _ _ _ (isPre_head_ne _ _ _ _ hne),
      ih hmem.2 rest]
    rfl

theorem replaceChars_ph_hit (k v rest : List Char) :
    replaceChars ('{' :: (k ++ ['}'])) v ('{' :: (k ++ '}' :: rest)) =
      v ++ replaceChars ('{' :: (k ++ ['}'])) v rest := by
  have hpre : isPre ('{' :: (k ++ ['}'])) ('{' :: (k ++ '}' :: rest)) = true := by
    rw [show ('{' :: (k ++ '}' :: rest)) = ('{' :: (k ++ ['}'])) ++ rest by simp]
    exact isPre_append_self _ _
  rw [replaceChars_cons_match _ _ _ _ _ hpre]
  congr 1
  rw [show (k ++ '}' :: rest) = (k ++ ['}']) ++ rest by simp]
  rw [show (k ++ ['}']).length = (k ++ ['}']).length from rfl, List.drop_left]

theorem replaceChars_ph_miss (k n v rest : List Char) (hk : braceFree k) (hn : braceFree n)
    (hne : n ≠ k) :
    replaceChars ('{' :: (k ++ ['}'])) v ('{' :: (n ++ '}' :: rest)) =
      '{' :: (n ++ '}' :: replaceChars ('{' :: (k ++ ['}'])) v rest) := by
  have hpre : isPre ('{' :: (k ++ ['}'])) ('{' :: (n ++ '}' :: rest)) = false := by
    cases hcase : isPre (k ++ ['}']) (n ++ '}' :: rest) with
    | false => simp [isPre, hcase]
    | true => exact absurd (isPre_pat_ph k n rest hk hn hcase) (fun h => hne h.symm)
  rw [replaceChars_cons_nomatch _ _ _ _ _ hpre]
  rw [show (n ++ '}' :: rest) = n ++ ('}' :: rest) by simp]
  rw [replaceChars_skip (k ++ ['}']) v n hn.1 ('}' :: rest)]
  rw [replaceChars_cons_nomatch _ _ _ _ _ (isPre_head_ne _ _ _ _ (by decide))]

theorem replaceChars_segs (k v : List Char) (hk : braceFree k) :
    ∀ (segs : List Seg), wfSegs segs →
      replaceChars ('{' :: (k ++ ['}'])) v (segsText segs) =
        segsText (segs.map (substSeg k v)) := by
  intro segs
  induction segs with
  | nil => intro _; rfl
  | cons sg rest ih =>
    intro hwf
    have hwf' : wfSegs rest := fun s hs => hwf s (List.mem_cons_of_mem _ hs)
    have hsg := hwf sg (List.mem_cons_self _ _)
    cases sg with
    | lit s =>
      simp only [segsText, List.map_cons, substSeg]
      rw [replaceChars_skip (k ++ ['}']) v s hsg.1 (segsText rest), ih hwf']
    | ph n =>
      by_cases hn : n = k
      · subst hn
        simp only [segsText, List.map_cons, substSeg, if_pos rfl]
        rw [replaceChars_ph_hit n v (segsText rest), ih hwf']
      · simp only [segsText, List.map_cons, substSeg, if_neg hn]
        rw [replaceChars_ph_miss k n v (segsText rest) hk hsg hn, ih hwf']

theorem wfSegs_map_subst (k v : List Char) (hv : braceFree v) (segs : List Seg)
    (hwf : wfSegs segs) : wfSegs (segs.map (substSeg k v)) := by
  intro sg hsg
  obtain ⟨sg0, hsg0, rfl⟩ := List.mem_map.mp hsg
  have h0 := hwf sg0 hsg0
  cases sg0 with
  | lit s => exact h0
  | ph n =>
    by_cases hn : n = k
    · simpa [substSeg, hn] using hv
    · simpa [substSeg, hn] using h0

theorem renderSegs_nil_map : ∀ segs : List Seg, renderSegs [] segs = segsText segs
  | [] => rfl
  | Seg.lit s :: rest => by simp [renderSegs, segsText, renderSegs_nil_map rest]
  | Seg.ph n :: rest => by simp [renderSegs, segsText, lookupA, renderSegs_nil_map rest]

theorem renderSegs_cons_key (k v : List Char) (m : List (List Char × List Char)) :
    ∀ segs : List Seg, renderSegs m (segs.map (substSeg k v)) = renderSegs ((k, v) :: m) segs
  | [] => rfl
  | Seg.lit s :: rest => by
    simp [renderSegs, substSeg, renderSegs_cons_key k v m rest]
  | Seg.ph n :: rest => by
    by_cases hn : n = k
    · simp [renderSegs, substSeg, hn, lookupA, renderSegs_cons_key k v m rest]
    · have hkn : ¬ (k = n) := fun h => hn h.symm
      simp [renderSegs, substSeg, hn, lookupA, hkn, renderSegs_cons_key k v m rest]

theorem foldl_replace_renderSegs :
    ∀ (m : List (List Char × List Char)) (segs : List Seg), wfSegs segs →
      (∀ kv ∈ m, braceFree kv.1 ∧ braceFree kv.2) →
      m.foldl (fun acc kv => replaceChars ('{' :: (kv.1 ++ ['}'])) kv.2 acc) (segsText segs) =
        renderSegs m segs := by
  intro m
  induction m with
  | nil => intro segs _ _; exact renderSegs_nil_map segs |>.symm ▸ rfl
  | cons kv m' ih =>
    intro segs hwf hbf
    have hbf0 := hbf kv (List.mem_cons_self _ _)
    simp only [List.foldl_cons]
    rw [replaceChars_segs kv.1 kv.2 hbf0.1 segs hwf,
      ih (segs.map (substSeg kv.1 kv.2)) (wfSegs_map_subst _ _ hbf0.2 segs hwf)
        (fun p hp => hbf p (List.mem_cons_of_mem _ hp)),
      renderSegs_cons_key kv.1 kv.2 m' segs]

/-! ## Last-occurrence-wins characterisation of variable parsing -/

theorem optOr_assoc {β : Type} (a b c : Option β) :
    optOr (optOr a b) c = optOr a (optOr b c) := by
  cases a <;> rfl

theorem optOr_none_right {β : Type} (a : Option β) : optOr a none = a := by
  cases a <;> rfl

theorem lookupA_foldl_update {α β : Type} [DecidableEq α] :
    ∀ (ps : List (α × β)) (m : List (α × β)) (k : α),
      lookupA (ps.foldl (fun m kv => updateA m kv.1 kv.2) m) k =
        optOr (lookupA ps.reverse k) (lookupA m k) := by
  intro ps
  induction ps with
  | nil => intro m k; rfl
  | cons p ps' ih =>
    intro m k
    simp only [List.foldl_cons, List.reverse_cons]
    rw [ih (updateA m p.1 p.2) k, lookupA_append, lookupA_update, optOr_assoc]
    congr 1
    by_cases h : p.1 = k
    · rw [if_pos h.symm]
      simp [lookupA, h, optOr]
    · have h' : ¬ (k = p.1) := fun hk => h hk.symm
      simp [lookupA, h, optOr, h']

theorem parseVariables_lastWins (vs : String) (k : List Char) :
    lookupA (parseVariables vs) k = lastWins vs k := by
  unfold parseVariables lastWins
  rw [lookupA_foldl_update]
  exact optOr_none_right _

/-! ## Lemmas about trimming and splitting -/

theorem mem_trimChars {c : Char} {s : List Char} (h : c ∈ trimChars s) : c ∈ s := by
  unfold trimChars at h
  have h1 : c ∈ (s.dropWhile ws).reverse.dropWhile ws := List.mem_reverse.mp h
  have h2 : c ∈ (s.dropWhile ws).reverse := (List.dropWhile_sublist _).mem h1
  have h3 : c ∈ s.dropWhile ws := List.mem_reverse.mp h2
  exact (List.dropWhile_sublist _).mem h3

theorem all_ws_of_trimChars_eq_nil {s : List Char} (h : trimChars s = []) :
    ∀ c ∈ s, ws c = true := by
  unfold trimChars at h
  have h1 : (s.dropWhile ws).reverse.dropWhile ws = [] := by
    simpa using congrArg List.reverse h
  have h2 : ∀ c ∈ (s.dropWhile ws).reverse, ws c := by
    intro c hc
    exact List.dropWhile_eq_nil_iff.mp h1 c hc
  have h3 : ∀ c ∈ s.dropWhile ws, ws c := fun c hc => h2 c (List.mem_reverse.mpr hc)
  intro c hc
  rw [← List.takeWhile_append_dropWhile (p := ws) (l := s)] at hc
  rcases List.mem_append.mp hc with h | h
  · exact List.mem_takeWhile_imp h
  · exact h3 c h

theorem trimChars_eq_nil_of_all_ws {s : List Char} (h : ∀ c ∈ s, ws c = true) :
    trimChars s = [] := by
  have h1 : s.dropWhile ws = [] := List.dropWhile_eq_nil_iff.mpr h
  simp [trimChars, h1]

theorem splitOnComma_ne_nil : ∀ s : List Char, splitOnComma s ≠ [] := by
  intro s
  cases s with
  | nil => simp [splitOnComma]
  | cons c rest =>
    simp only [splitOnComma]
    cases splitOnComma rest with
    | nil => simp
    | cons h t => by_cases hc : c = ',' <;> simp [hc]

theorem mem_splitOnComma_subset :
    ∀ (s ch : List Char), ch ∈ splitOnComma s → ∀ c ∈ ch, c ∈ s := by
  intro s
  induction s with
  | nil =>
    intro ch hch c hc
    simp only [splitOnComma, List.mem_singleton] at hch
    subst hch
    simp at hc
  | cons a rest ih =>
    intro ch hch c hc
    cases hrec : splitOnComma rest with
    | nil => exact absurd hrec (splitOnComma_ne_nil rest)
    | cons h t =>
      have heq : splitOnComma (a :: rest) = if a = ',' then [] :: h :: t else (a :: h) :: t := by
        simp [splitOnComma, hrec]
      rw [heq] at hch
      by_cases ha : a = ','
      · rw [if_pos ha] at hch
        rcases List.mem_cons.mp hch with hch | hch
        · subst hch; simp at hc
        · have : c ∈ rest := ih ch (by rw [hrec]; exact hch) c hc
          exact List.mem_cons_of_mem _ this
      · rw [if_neg ha] at hch
        rcases List.mem_cons.mp hch with hch | hch
        · subst hch
          rcases List.mem_cons.mp hc with hc | hc
          · subst hc; exact List.mem_cons_self _ _
          · have : c ∈ rest := ih h (by rw [hrec]; exact List.mem_cons_self _ _) c hc
            exact List.mem_cons_of_mem _ this
        · have : c ∈ rest := ih ch (by rw [hrec]; exact List.mem_cons_of_mem _ hch) c hc
          exact List.mem_cons_of_mem _ this

theorem parseVariables_eq_nil_of_no_eq (vs : String)
    (h : ∀ ch ∈ splitOnComma vs.data, '=' ∉ ch) : parseVariables vs = [] := by
  unfold parseVariables
  have hp : parsePairs (splitOnComma vs.data) = [] := by
    unfold parsePairs
    rw [List.filterMap_eq_nil_iff]
    intro ch hch
    have hm : '=' ∉ trimChars ch := fun hmem => h ch hch (mem_trimChars hmem)
    simp [parsePair, hm]
  rw [hp]
  rfl

theorem parseVariables_eq_nil_of_trim_nil (vs : String)
    (h : trimChars vs.data = []) : parseVariables vs = [] := by
  apply parseVariables_eq_nil_of_no_eq
  intro ch hch hmem
  have hws : ws '=' = true :=
    all_ws_of_trimChars_eq_nil h '=' (mem_splitOnComma_subset vs.data ch hch '=' hmem)
  exact absurd hws (by decide)

/-! ## Claim C8 -/

/-- C8: for every template, variable substitution with an empty, all-whitespace, or
malformed variable string (no comma-separated chunk containing an equals sign) is the
identity: the returned text equals the input template. -/
theorem substitution_inert_on_malformed (prompt vs : String) :
    (trimChars vs.data = [] → substitute_variables prompt vs = prompt) ∧
    ((∀ ch ∈ splitOnComma vs.data, '=' ∉ ch) → substitute_variables prompt vs = prompt) := by
  constructor
  · intro h
    simp [substitute_variables, h]
  · intro h
    by_cases ht : trimChars vs.data = []
    · simp [substitute_variables, ht]
    · rw [substitute_variables, if_neg ht, parseVariables_eq_nil_of_no_eq vs h]
      rfl

theorem substitution_inert_on_malformed_witness :
    trimChars (String.data "  ") = [] ∧
    substitute_variables "a {x}" "  " = "a {x}" ∧
    substitute_variables "a {x}" "garbage" = "a {x}" :=
  ⟨by decide, (substitution_inert_on_malformed "a {x}" "  ").1 (by decide),
   (substitution_inert_on_malformed "a {x}" "garbage").2 (by decide)⟩

/-! ## Claim C1 -/

/-- C1 counterexample: the source substitutes sequentially, one parsed key at a time, so
with template containing only the placeholder of `a`, and variables assigning `a` the
braced name of `b` and `b` the value `X`, the code rewrites the substituted value again
and returns `X`, while the claim's reading — every braced-key occurrence of the template
replaced by its value, nothing else changed — yields the braced name of `b`. -/
theorem substitution_chaining_counterexample :
    substitute_variables "{a}" "a={b}, b=X" = "X" ∧
    specSubstitute "{a}" "a={b}, b=X" = "{b}" ∧
    substitute_variables "{a}" "a={b}, b=X" ≠ specSubstitute "{a}" "a={b}, b=X" :=
  ⟨by decide, by decide, by decide⟩

/-- C1 (amended): variable substitution parses the comma-separated pairs into a mapping
in which the last occurrence of a duplicate key wins, after trimming whitespace from each
key and value (first conjunct), and applies the replacements sequentially in mapping
order, so a substituted value is itself subject to the replacements of later keys; when
every parsed key and value is brace-free and the template is an alternation of brace-free
literal text and braced placeholders, the result replaces every placeholder whose name
has a supplied value by that value and leaves every other placeholder as literal
unchanged text (second conjunct). -/
theorem substitute_variables_amended (segs : List Seg) (vs : String)
    (hwf : wfSegs segs)
    (hbf : ∀ kv ∈ parseVariables vs, braceFree kv.1 ∧ braceFree kv.2) :
    (∀ k, lookupA (parseVariables vs) k = lastWins vs k) ∧
    substitute_variables (String.mk (segsText segs)) vs =
      String.mk (renderSegs (parseVariables vs) segs) := by
  refine ⟨fun k => parseVariables_lastWins vs k, ?_⟩
  by_cases ht : trimChars vs.data = []
  · rw [substitute_variables, if_pos ht, parseVariables_eq_nil_of_trim_nil vs ht,
      renderSegs_nil_map]
  · rw [substitute_variables, if_neg ht]
    congr 1
    exact foldl_replace_renderSegs (parseVariables vs) segs hwf hbf

theorem substitute_variables_amended_witness :
    substitute_variables "a {x} in {y}" "x=cat, y=Paris" = "a cat in Paris" ∧
    substitute_variables "a {x} in {y}" "x=cat" = "a cat in {y}" := by
  have hwf : wfSegs [Seg.lit ['a', ' '], Seg.ph ['x'], Seg.lit [' ', 'i', 'n', ' '],
      Seg.ph ['y']] := by
    intro sg hsg
    simp only [List.mem_cons, List.not_mem_nil, or_false] at hsg
    rcases hsg with rfl | rfl | rfl | rfl <;> exact ⟨by decide, by decide⟩
  refine ⟨?_, ?_⟩
  · have h1 := (substitute_variables_amended [Seg.lit ['a', ' '], Seg.ph ['x'],
      Seg.lit [' ', 'i', 'n', ' '], Seg.ph ['y']] "x=cat, y=Paris" hwf (by decide)).2
    exact h1.trans (by decide)
  · have h2 := (substitute_variables_amended [Seg.lit ['a', ' '], Seg.ph ['x'],
      Seg.lit [' ', 'i', 'n', ' '], Seg.ph ['y']] "x=cat" hwf (by decide)).2
    exact h2.trans (by decide)

/-! ## Claim C4 -/

/-- C4: for every document, deleting the collection with the reserved id "favorites"
fails — both at the library operation and through the plugin's delete handler — and
leaves the whole document unchanged: no collection and no record is added, removed, or
modified by the attempt. -/
theorem delete_favorites_protected (lib : Library) (display : String) :
    delete_collection lib "favorites" = (false, lib) ∧
    (extract_collection_id lib display = some "favorites" →
      delete_collection_handler lib display = (false, lib)) := by
  constructor
  · simp [delete_collection]
  · intro h
    simp [delete_collection_handler, h]

theorem delete_favorites_protected_witness :
    extract_collection_id (Library.mk [Collection.mk "favorites" "Favorites" []] [])
        "Favorites" = some "favorites" ∧
    delete_collection_handler (Library.mk [Collection.mk "favorites" "Favorites" []] [])
        "Favorites" = (false, Library.mk [Collection.mk "favorites" "Favorites" []] []) :=
  ⟨by decide,
   (delete_favorites_protected (Library.mk [Collection.mk "favorites" "Favorites" []] [])
     "Favorites").2 (by decide)⟩

/-! ## Claim C6 -/

/-- C6: adding an already-favorited id reports failure and removing a non-favorited id
reports failure, the favorites membership (indeed the whole document) being unchanged in
both cases; after a successful add of a non-favorited id, membership is true, and a
second add reports failure with the document, hence the membership, unchanged. -/
theorem favorites_idempotence (lib : Library) (id : String) :
    (is_in_favorites lib id = true → add_to_favorites lib id = (false, lib)) ∧
    (is_in_favorites lib id = false → remove_from_favorites lib id = (false, lib)) ∧
    (is_in_favorites lib id = false →
      (add_to_favorites lib id).1 = true ∧
      is_in_favorites (add_to_favorites lib id).2 id = true ∧
      add_to_favorites (add_to_favorites lib id).2 id =
        (false, (add_to_favorites lib id).2)) := by
  refine ⟨?_, ?_, ?_⟩
  · intro h
    simp only [is_in_favorites, decide_eq_true_eq] at h
    simp [add_to_favorites, h]
  · intro h
    simp only [is_in_favorites, decide_eq_false_iff_not] at h
    simp [remove_from_favorites, h]
  · intro h
    simp only [is_in_favorites, decide_eq_false_iff_not] at h
    refine ⟨by simp [add_to_favorites, h], ?_, ?_⟩
    · simp [add_to_favorites, h, is_in_favorites]
    · simp [add_to_favorites, h]

theorem favorites_idempotence_witness :
    is_in_favorites (Library.mk [] ["p1"]) "p1" = true ∧
    add_to_favorites (Library.mk [] ["p1"]) "p1" = (false, Library.mk [] ["p1"]) ∧
    is_in_favorites (Library.mk [] []) "p2" = false ∧
    (add_to_favorites (Library.mk [] []) "p2").1 = true :=
  ⟨by decide, (favorites_idempotence (Library.mk [] ["p1"]) "p1").1 (by decide),
   by decide, ((favorites_idempotence (Library.mk [] []) "p2").2.2 (by decide)).1⟩

/-! ## Claim C7 -/

theorem bumpCollections_eq_of_none (id : String) (now : Nat) :
    ∀ cols : List Collection,
      (∀ c ∈ cols, c.prompts.find? (fun r => r.id == id) = none) →
      bumpCollections id now cols = cols := by
  intro cols
  induction cols with
  | nil => intro _; rfl
  | cons c cs ih =>
    intro h
    have hc := h c (List.mem_cons_self _ _)
    simp only [bumpCollections, hc, Option.isSome_none, Bool.false_eq_true, if_false]
    rw [ih (fun c' hc' => h c' (List.mem_cons_of_mem _ hc'))]

theorem find?_bumpUsage (id : String) (now : Nat) :
    ∀ (l : List PromptRecord) (r : PromptRecord),
      l.find? (fun r => r.id == id) = some r →
      (bumpUsage id now l).find? (fun r => r.id == id) = some (bumpRecord r now) ∧
      (bumpUsage id now l).length = l.length := by
  intro l
  induction l with
  | nil => intro r h; simp at h
  | cons p ps ih =>
    intro r h
    by_cases hp : p.id = id
    · have hr : p = r := by
        rw [List.find?_cons_of_pos _ (by simp [hp])] at h
        exact Option.some.inj h
      subst hr
      constructor
      · simp only [bumpUsage, if_pos hp]
        exact List.find?_cons_of_pos _ (by simp [bumpRecord, hp])
      · simp [bumpUsage, hp]
    · have h' : ps.find? (fun r => r.id == id) = some r := by
        rw [List.find?_cons_of_neg _ (by simp [hp])] at h
        exact h
      obtain ⟨h1, h2⟩ := ih r h'
      constructor
      · simp only [bumpUsage, if_neg hp]
        rw [List.find?_cons_of_neg _ (by simp [hp])]
        exact h1
      · simp [bumpUsage, hp, h2]

theorem findSome?_bumpCollections (id : String) (now : Nat) :
    ∀ (cols : List Collection) (r : PromptRecord),
      cols.findSome? (fun c => c.prompts.find? (fun r => r.id == id)) = some r →
      (bumpCollections id now cols).findSome?
          (fun c => c.prompts.find? (fun r => r.id == id)) = some (bumpRecord r now) ∧
      (bumpCollections id now cols).foldr (fun c n => c.prompts.length + n) 0 =
        cols.foldr (fun c n => c.prompts.length + n) 0 := by
  intro cols
  induction cols with
  | nil => intro r h; simp at h
  | cons c cs ih =>
    intro r h
    cases hf : c.prompts.find? (fun r => r.id == id) with
    | some r0 =>
      have hr : r0 = r := by
        rw [List.findSome?_cons, hf] at h
        exact Option.some.inj h
      subst hr
      obtain ⟨h1, h2⟩ := find?_bumpUsage id now c.prompts r0 hf
      constructor
      · simp only [bumpCollections, hf, Option.isSome_some, if_true]
        rw [List.findSome?_cons, h1]
      · simp [bumpCollections, hf, h2]
    | none =>
      have h' : cs.findSome? (fun c => c.prompts.find? (fun r => r.id == id)) = some r := by
        rw [List.findSome?_cons, hf] at h
        exact h
      obtain ⟨h1, h2⟩ := ih r h'
      constructor
      · simp only [bumpCollections, hf, Option.isSome_none, Bool.false_eq_true, if_false]
        rw [List.findSome?_cons, hf]
        exact h1
      · simp [bumpCollections, hf, h2]

/-- C7: `record_usage` on a known id increments that record's use_count by exactly 1 and
sets its updated_at timestamp to the current time, with the total number of records
unchanged; on an unknown id it is a no-op rather than an error: the document is
returned entirely unchanged. -/
theorem record_usage_spec (lib : Library) (id : String) (now : Nat) :
    (get_prompt lib id = none → record_usage lib id now = lib) ∧
    (∀ r, get_prompt lib id = some r →
      get_prompt (record_usage lib id now) id =
        some { r with use_count := r.use_count + 1, updated_at := now } ∧
      totalRecords (record_usage lib id now) = totalRecords lib) := by
  constructor
  · intro h
    have hall : ∀ c ∈ lib.collections, c.prompts.find? (fun r => r.id == id) = none :=
      List.findSome?_eq_none_iff.mp h
    simp [record_usage, bumpCollections_eq_of_none id now lib.collections hall]
  · intro r h
    exact findSome?_bumpCollections id now lib.collections r h

theorem record_usage_spec_witness :
    get_prompt (Library.mk [Collection.mk "favorites" "Favorites"
        [PromptRecord.mk "p1" "N" "P" "" [] [] 0 0 0]] []) "p1" =
      some (PromptRecord.mk "p1" "N" "P" "" [] [] 0 0 0) ∧
    get_prompt (record_usage (Library.mk [Collection.mk "favorites" "Favorites"
        [PromptRecord.mk "p1" "N" "P" "" [] [] 0 0 0]] []) "p1" 7) "p1" =
      some (PromptRecord.mk "p1" "N" "P" "" [] [] 1 0 7) ∧
    record_usage (Library.mk [Collection.mk "favorites" "Favorites"
        [PromptRecord.mk "p1" "N" "P" "" [] [] 0 0 0]] []) "zz" 7 =
      Library.mk [Collection.mk "favorites" "Favorites"
        [PromptRecord.mk "p1" "N" "P" "" [] [] 0 0 0]] [] := by
  refine ⟨by decide, ?_, ?_⟩
  · exact ((record_usage_spec (Library.mk [Collection.mk "favorites" "Favorites"
      [PromptRecord.mk "p1" "N" "P" "" [] [] 0 0 0]] []) "p1" 7).2
      (PromptRecord.mk "p1" "N" "P" "" [] [] 0 0 0) (by decide)).1
  · exact (record_usage_spec (Library.mk [Collection.mk "favorites" "Favorites"
      [PromptRecord.mk "p1" "N" "P" "" [] [] 0 0 0]] []) "zz" 7).1 (by decide)

theorem head_dropWhile_not_ws :
    ∀ (s : List Char) (c : Char) (t : List Char), s.dropWhile ws = c :: t → ws c = false := by
  intro s
  induction s with
  | nil => intro c t h; simp at h
  | cons a s' ih =>
    intro c t h
    by_cases ha : ws a = true
    · rw [List.dropWhile_cons, if_pos ha] at h
      exact ih c t h
    · rw [List.dropWhile_cons, if_neg ha] at h
      injection h with h1 _
      subst h1
      simpa using ha

theorem trimChars_trimChars_nil {s : List Char} (h : trimChars (trimChars s) = []) :
    trimChars s = [] := by
  by_contra hne
  cases hts : trimChars s with
  | nil => exact hne hts
  | cons c t =>
    have hwsc : ws c = true :=
      all_ws_of_trimChars_eq_nil h c (by rw [hts]; exact List.mem_cons_self _ _)
    have hu : s.dropWhile ws =
        trimChars s ++ ((s.dropWhile ws).reverse.takeWhile ws).reverse := by
      calc s.dropWhile ws = ((s.dropWhile ws).reverse).reverse :=
            (List.reverse_reverse _).symm
        _ = (((s.dropWhile ws).reverse.takeWhile ws) ++
              ((s.dropWhile ws).reverse.dropWhile ws)).reverse := by
            rw [List.takeWhile_append_dropWhile]
        _ = ((s.dropWhile ws).reverse.dropWhile ws).reverse ++
              ((s.dropWhile ws).reverse.takeWhile ws).reverse := by
            rw [List.reverse_append]
        _ = trimChars s ++ ((s.dropWhile ws).reverse.takeWhile ws).reverse := rfl
    rw [hts] at hu
    have hhead : ws c = false :=
      head_dropWhile_not_ws s c (t ++ ((s.dropWhile ws).reverse.takeWhile ws).reverse) hu
    rw [hwsc] at hhead
    simp at hhead

theorem strip_eq_empty_iff (s : String) : strip s = "" ↔ trimChars s.data = [] := by
  constructor
  · intro h
    have h2 := congrArg String.data h
    simpa [strip] using h2
  · intro h
    unfold strip
    rw [h]

theorem mem_allIds_aux :
    ∀ (cols : List Collection) (c : Collection), c ∈ cols → ∀ r ∈ c.prompts,
      r.id ∈ cols.foldr (fun c acc => c.prompts.map (fun r => r.id) ++ acc) [] := by
  intro cols
  induction cols with
  | nil => intro c hc; simp at hc
  | cons c0 cs ih =>
    intro c hc r hr
    simp only [List.foldr_cons]
    rcases List.mem_cons.mp hc with rfl | h
    · exact List.mem_append.mpr (Or.inl (List.mem_map.mpr ⟨r, hr, rfl⟩))
    · exact List.mem_append.mpr (Or.inr (ih c h r hr))

theorem not_mem_allIds {lib : Library} {x : String} (h : x ∉ allIds lib) :
    ∀ c ∈ lib.collections, ∀ r ∈ c.prompts, r.id ≠ x := by
  intro c hc r hr heq
  exact h (heq ▸ mem_allIds_aux lib.collections c hc r hr)

theorem find?_append_none {α : Type} (p : α → Bool) :
    ∀ (l1 l2 : List α), l1.find? p = none → (l1 ++ l2).find? p = l2.find? p := by
  intro l1
  induction l1 with
  | nil => intro l2 _; rfl
  | cons a l1' ih =>
    intro l2 h
    by_cases ha : p a = true
    · rw [List.find?_cons_of_pos _ ha] at h
      exact absurd h (by simp)
    · rw [List.find?_cons_of_neg _ (by simpa using ha)] at h
      rw [List.cons_append, List.find?_cons_of_neg _ (by simpa using ha)]
      exact ih l2 h

theorem get_prompt_append_new (cid : String) (nr : PromptRecord) :
    ∀ cols : List Collection,
      (∀ c ∈ cols, ∀ r ∈ c.prompts, r.id ≠ nr.id) →
      (∃ c ∈ cols, c.id = cid) →
      (cols.map (fun c =>
        if c.id = cid then { c with prompts := c.prompts ++ [nr] } else c)).findSome?
          (fun c => c.prompts.find? (fun r => r.id == nr.id)) = some nr := by
  intro cols
  induction cols with
  | nil => intro _ hex; simp at hex
  | cons c cs ih =>
    intro hno hex
    have hcnone : c.prompts.find? (fun r => r.id == nr.id) = none := by
      rw [List.find?_eq_none]
      intro r hr
      simp [hno c (List.mem_cons_self _ _) r hr]
    by_cases hc : c.id = cid
    · simp only [List.map_cons, if_pos hc, List.findSome?_cons]
      rw [find?_append_none _ _ _ hcnone]
      simp [List.find?]
    · simp only [List.map_cons, if_neg hc, List.findSome?_cons, hcnone]
      apply ih
      · exact fun c' h' r hr => hno c' (List.mem_cons_of_mem _ h') r hr
      · rcases hex with ⟨c0, hc0, hcid⟩
        rcases List.mem_cons.mp hc0 with rfl | h0
        · exact absurd hcid hc
        · exact ⟨c0, h0, hcid⟩

/-- C5: the plugin's save handler, delegating to `add_prompt`, fails and performs no
mutation whenever the target collection id is unknown or the name or the effective
prompt is empty after trimming whitespace; otherwise it reports success and the library
gains a record, retrievable under the fresh id, whose name, prompt and tags match the
input exactly, with `use_count = 0`. -/
theorem save_current_prompt_spec (lib : Library) (hostSettings : Settings) (newId : String)
    (now : Nat) (name collection prompt_input negative_input tags_str : String)
    (include_settings : Bool) (hfresh : newId ∉ allIds lib) :
    (strip name = "" →
      save_current_prompt lib hostSettings newId now name collection prompt_input
        negative_input tags_str include_settings = (false, lib)) ∧
    (strip (if prompt_input = "" then getStr hostSettings "prompt" else prompt_input) = "" →
      save_current_prompt lib hostSettings newId now name collection prompt_input
        negative_input tags_str include_settings = (false, lib)) ∧
    (getCollection lib collection = none →
      save_current_prompt lib hostSettings newId now name collection prompt_input
        negative_input tags_str include_settings = (false, lib)) ∧
    (strip name ≠ "" →
      strip (if prompt_input = "" then getStr hostSettings "prompt" else prompt_input) ≠ "" →
      ∀ c, getCollection lib collection = some c →
        (save_current_prompt lib hostSettings newId now name collection prompt_input
          negative_input tags_str include_settings).1 = true ∧
        get_prompt (save_current_prompt lib hostSettings newId now name collection
            prompt_input negative_input tags_str include_settings).2 newId =
          some (PromptRecord.mk newId (strip name)
            (if prompt_input = "" then getStr hostSettings "prompt" else prompt_input)
            (if prompt_input = "" then
              (if negative_input = "" then getStr hostSettings "negative_prompt"
               else negative_input) else negative_input)
            (parseTags tags_str) (captureSettings hostSettings include_settings)
            0 now now)) := by
  refine ⟨?_, ?_, ?_, ?_⟩
  · intro hname
    simp [save_current_prompt, hname]
  · intro heff
    by_cases hname : strip name = ""
    · simp [save_current_prompt, hname]
    · by_cases hp : (if prompt_input = "" then getStr hostSettings "prompt"
          else prompt_input) = ""
      · simp [save_current_prompt, hname, hp]
      · have hadd : ∀ neg : String, add_prompt lib newId now collection (strip name)
            (if prompt_input = "" then getStr hostSettings "prompt" else prompt_input) neg
            (parseTags tags_str) (captureSettings hostSettings include_settings) = none := by
          intro neg
          unfold add_prompt
          rw [if_pos (Or.inr heff)]
        simp [save_current_prompt, hname, hp, hadd]
  · intro hcoll
    by_cases hname : strip name = ""
    · simp [save_current_prompt, hname]
    · by_cases hp : (if prompt_input = "" then getStr hostSettings "prompt"
          else prompt_input) = ""
      · simp [save_current_prompt, hname, hp]
      · have hadd : ∀ nm pr neg : String, ∀ tg : List String, ∀ st : Settings,
            add_prompt lib newId now collection nm pr neg tg st = none := by
          intro nm pr neg tg st
          by_cases hg : strip nm = "" ∨ strip pr = ""
          · simp [add_prompt, hg]
          · simp [add_prompt, hg, hcoll]
        simp [save_current_prompt, hname, hp, hadd]
  · intro hname heff c hcoll
    have hpne : (if prompt_input = "" then getStr hostSettings "prompt"
        else prompt_input) ≠ "" := by
      intro h0
      apply heff
      rw [h0]
      rfl
    have hg : ¬ (strip (strip name) = "" ∨
        strip (if prompt_input = "" then getStr hostSettings "prompt"
          else prompt_input) = "") := by
      rintro (h1 | h2)
      · exact hname ((strip_eq_empty_iff name).mpr
          (trimChars_trimChars_nil ((strip_eq_empty_iff (strip name)).mp h1)))
      · exact heff h2
    have hmem : c ∈ lib.collections := List.mem_of_find?_eq_some hcoll
    have hcid : c.id = collection := by
      have := List.find?_some hcoll
      simpa using this
    constructor
    · simp [save_current_prompt, hname, hpne, add_prompt, hg, hcoll]
    · have hres : (save_current_prompt lib hostSettings newId now name collection
          prompt_input negative_input tags_str include_settings).2 =
          { lib with collections := lib.collections.map (fun c0 =>
            if c0.id = collection then { c0 with prompts := c0.prompts ++
              [PromptRecord.mk newId (strip name)
                (if prompt_input = "" then getStr hostSettings "prompt" else prompt_input)
                (if prompt_input = "" then
                  (if negative_input = "" then getStr hostSettings "negative_prompt"
                   else negative_input) else negative_input)
                (parseTags tags_str) (captureSettings hostSettings include_settings)
                0 now now] }
            else c0) } := by
        simp [save_current_prompt, hname, hpne, add_prompt, hg, hcoll]
      rw [hres]
      exact get_prompt_append_new collection
        (PromptRecord.mk newId (strip name)
          (if prompt_input = "" then getStr hostSettings "prompt" else prompt_input)
          (if prompt_input = "" then
            (if negative_input = "" then getStr hostSettings "negative_prompt"
             else negative_input) else negative_input)
          (parseTags tags_str) (captureSettings hostSettings include_settings)
          0 now now)
        lib.collections (not_mem_allIds hfresh) ⟨c, hmem, hcid⟩

theorem save_current_prompt_spec_witness :
    (save_current_prompt (Library.mk [Collection.mk "favorites" "Favorites" []] []) []
        "p9" 3 " My prompt " "favorites" "hello" "" "a, b" false).1 = true ∧
    get_prompt (save_current_prompt
        (Library.mk [Collection.mk "favorites" "Favorites" []] [])
        [] "p9" 3 " My prompt " "favorites" "hello" "" "a, b" false).2 "p9" =
      some (PromptRecord.mk "p9" "My prompt" "hello" "" ["a", "b"] [] 0 3 3) := by
  have h := (save_current_prompt_spec (Library.mk [Collection.mk "favorites" "Favorites" []] [])
    [] "p9" 3 " My prompt " "favorites" "hello" "" "a, b" false (by decide)).2.2.2
    (by decide) (by decide) (Collection.mk "favorites" "Favorites" []) (by decide)
  exact ⟨h.1, h.2.trans (by decide)⟩

theorem reassignRecords_length (existing : List String) (fresh : Nat → String) :
    ∀ (n : Nat) (l : List PromptRecord),
      (reassignRecords existing fresh n l).length = l.length := by
  intro n l
  induction l generalizing n with
  | nil => rfl
  | cons r rs ih =>
    by_cases hr : r.id ∈ existing
    · simp [reassignRecords, hr, ih]
    · simp [reassignRecords, hr, ih]

theorem reassignRecords_preserves (existing : List String) (fresh : Nat → String)
    (hf : ∀ n, fresh n ∉ existing) :
    ∀ (n : Nat) (l : List PromptRecord) (r : PromptRecord), r ∈ l →
      ∃ r' ∈ reassignRecords existing fresh n l,
        r'.name = r.name ∧ r'.prompt = r.prompt ∧ r'.tags = r.tags ∧
        (r.id ∉ existing → r' = r) ∧ (r.id ∈ existing → r'.id ∉ existing) := by
  intro n l
  induction l generalizing n with
  | nil => intro r hr; simp at hr
  | cons r0 rs ih =>
    intro r hr
    rcases List.mem_cons.mp hr with rfl | h
    · by_cases hr0 : r.id ∈ existing
      · refine ⟨{ r with id := fresh n }, ?_, rfl, rfl, rfl, ?_, ?_⟩
        · simp [reassignRecords, hr0]
        · intro hno; exact absurd hr0 hno
        · intro _; exact hf n
      · refine ⟨r, ?_, rfl, rfl, rfl, fun _ => rfl, fun hmem => absurd hmem hr0⟩
        simp [reassignRecords, hr0]
    · by_cases hr0 : r0.id ∈ existing
      · obtain ⟨r', hr', hprops⟩ := ih (n + 1) r h
        refine ⟨r', ?_, hprops⟩
        simp only [reassignRecords, if_pos hr0]
        exact List.mem_cons_of_mem _ hr'
      · obtain ⟨r', hr', hprops⟩ := ih n r h
        refine ⟨r', ?_, hprops⟩
        simp only [reassignRecords, if_neg hr0]
        exact List.mem_cons_of_mem _ hr'

theorem find?_map_preserve (f : Collection → Collection) (hid : ∀ c, (f c).id = c.id)
    (cid : String) :
    ∀ cols : List Collection,
      (cols.map f).find? (fun c => c.id == cid) =
        (cols.find? (fun c => c.id == cid)).map f := by
  intro cols
  induction cols with
  | nil => rfl
  | cons c cs ih =>
    by_cases hc : c.id = cid
    · rw [List.map_cons, List.find?_cons_of_pos _ (by simp [hid, hc]),
        List.find?_cons_of_pos _ (by simp [hc])]
      rfl
    · rw [List.map_cons, List.find?_cons_of_neg _ (by simp [hid, hc]),
        List.find?_cons_of_neg _ (by simp [hc])]
      exact ih

/-- C3: importing a document with merge=true into an existing collection of the same id
appends the incoming records to it: the result still resolves to a collection under the
document's id, no record is dropped (the new length is the sum), every pre-existing
record is present verbatim, every incoming record is present with identical
name/prompt/tags — unchanged when its id was unused, and under a fresh id not used
anywhere in the pre-import document when its id collided — so a colliding pre-existing
record and its incoming namesake end up as two distinct records, neither overwritten. -/
theorem import_merge_spec (lib : Library) (doc : ImportDoc) (fresh : Nat → String)
    (c : Collection) (hcoll : getCollection lib doc.id = some c)
    (hf : ∀ n, fresh n ∉ allIds lib) :
    (getCollection (import_collection lib doc true fresh).2 doc.id).isSome = true ∧
    ∀ c', getCollection (import_collection lib doc true fresh).2 doc.id = some c' →
      c'.prompts.length = c.prompts.length + doc.prompts.length ∧
      (∀ r ∈ c.prompts, r ∈ c'.prompts) ∧
      (∀ r ∈ doc.prompts, ∃ r' ∈ c'.prompts,
        r'.name = r.name ∧ r'.prompt = r.prompt ∧ r'.tags = r.tags ∧
        (r.id ∉ allIds lib → r' = r) ∧
        (r.id ∈ allIds lib → r'.id ∉ allIds lib)) ∧
      (∀ p ∈ c.prompts, ∀ r ∈ doc.prompts, p.id = r.id →
        p ∈ c'.prompts ∧ ∃ r' ∈ c'.prompts, r'.id ≠ p.id ∧
          r'.name = r.name ∧ r'.prompt = r.prompt ∧ r'.tags = r.tags) := by
  have hcid : c.id = doc.id := by
    have := List.find?_some hcoll
    simpa using this
  have hmemc : c ∈ lib.collections := List.mem_of_find?_eq_some hcoll
  have hid : ∀ c0 : Collection, ((fun c0 =>
      if c0.id = doc.id then
        { c0 with
          prompts := c0.prompts ++ reassignRecords (allIds lib) fresh 0 doc.prompts }
      else c0) c0).id = c0.id := by
    intro c0
    by_cases h0 : c0.id = doc.id <;> simp [h0]
  have hstep : (import_collection lib doc true fresh).2 =
      Library.mk (lib.collections.map (fun c0 =>
        if c0.id = doc.id then
          { c0 with
            prompts := c0.prompts ++ reassignRecords (allIds lib) fresh 0 doc.prompts }
        else c0)) lib.favorites := by
    rw [import_collection, hcoll]
    rfl
  have hres : getCollection (import_collection lib doc true fresh).2 doc.id =
      some { c with
        prompts := c.prompts ++ reassignRecords (allIds lib) fresh 0 doc.prompts } := by
    rw [hstep]
    show (lib.collections.map (fun c0 =>
      if c0.id = doc.id then
        { c0 with
          prompts := c0.prompts ++ reassignRecords (allIds lib) fresh 0 doc.prompts }
      else c0)).find? (fun c0 => c0.id == doc.id) = _
    rw [find?_map_preserve _ hid doc.id lib.collections]
    rw [show lib.collections.find? (fun c0 => c0.id == doc.id) = some c from hcoll]
    simp [hcid]
  constructor
  · rw [hres]; rfl
  · intro c' hc'
    rw [hres] at hc'
    have hc'eq : c' = { c with
        prompts := c.prompts ++ reassignRecords (allIds lib) fresh 0 doc.prompts } :=
      (Option.some.inj hc').symm
    subst hc'eq
    refine ⟨?_, ?_, ?_, ?_⟩
    · simp [reassignRecords_length]
    · intro r hr
      exact List.mem_append.mpr (Or.inl hr)
    · intro r hr
      obtain ⟨r', hr', hprops⟩ :=
        reassignRecords_preserves (allIds lib) fresh hf 0 doc.prompts r hr
      exact ⟨r', List.mem_append.mpr (Or.inr hr'), hprops⟩
    · intro p hp r hr heq
      refine ⟨List.mem_append.mpr (Or.inl hp), ?_⟩
      obtain ⟨r', hr', h1, h2, h3, _, h5⟩ :=
        reassignRecords_preserves (allIds lib) fresh hf 0 doc.prompts r hr
      have hpid : p.id ∈ allIds lib := mem_allIds_aux lib.collections c hmemc p hp
      have hrid : r.id ∈ allIds lib := heq ▸ hpid
      refine ⟨r', List.mem_append.mpr (Or.inr hr'), ?_, h1, h2, h3⟩
      intro hbad
      exact (h5 hrid) (hbad ▸ hpid)

theorem import_merge_spec_witness :
    (getCollection (import_collection
        (Library.mk [Collection.mk "col" "C"
          [PromptRecord.mk "p1" "old" "P" "" [] [] 0 0 0]] [])
        (ImportDoc.mk "col" "C" [PromptRecord.mk "p1" "inc" "Q" "" [] [] 0 0 0]) true
        (fun _ => "fx")).2 "col").isSome = true ∧
    (Collection.mk "col" "C" [PromptRecord.mk "p1" "old" "P" "" [] [] 0 0 0,
        PromptRecord.mk "fx" "inc" "Q" "" [] [] 0 0 0]).prompts.length = 1 + 1 ∧
    PromptRecord.mk "p1" "old" "P" "" [] [] 0 0 0 ∈
      (Collection.mk "col" "C" [PromptRecord.mk "p1" "old" "P" "" [] [] 0 0 0,
        PromptRecord.mk "fx" "inc" "Q" "" [] [] 0 0 0]).prompts := by
  have h := import_merge_spec
    (Library.mk [Collection.mk "col" "C"
      [PromptRecord.mk "p1" "old" "P" "" [] [] 0 0 0]] [])
    (ImportDoc.mk "col" "C" [PromptRecord.mk "p1" "inc" "Q" "" [] [] 0 0 0])
    (fun _ => "fx")
    (Collection.mk "col" "C" [PromptRecord.mk "p1" "old" "P" "" [] [] 0 0 0])
    (by decide)
    (fun _ => (by decide : ("fx" : String) ∉ allIds (Library.mk [Collection.mk "col" "C"
      [PromptRecord.mk "p1" "old" "P" "" [] [] 0 0 0]] [])))
  have h2 := h.2 (Collection.mk "col" "C" [PromptRecord.mk "p1" "old" "P" "" [] [] 0 0 0,
    PromptRecord.mk "fx" "inc" "Q" "" [] [] 0 0 0]) (by decide)
  exact ⟨h.1, h2.1, h2.2.1 (PromptRecord.mk "p1" "old" "P" "" [] [] 0 0 0) (by decide)⟩

theorem isPre_iff : ∀ (n t : List Char), isPre n t = true ↔ ∃ rest, t = n ++ rest := by
  intro n
  induction n with
  | nil => intro t; simp [isPre]
  | cons a as ih =>
    intro t
    cases t with
    | nil => simp [isPre]
    | cons b bs =>
      simp only [isPre, Bool.and_eq_true, beq_iff_eq]
      constructor
      · rintro ⟨rfl, h⟩
        obtain ⟨rest, rfl⟩ := (ih bs).mp h
        exact ⟨rest, rfl⟩
      · rintro ⟨rest, heq⟩
        injection heq with h1 h2
        exact ⟨h1.symm, (ih bs).mpr ⟨rest, h2⟩⟩

theorem isSubstr_iff (n hay : List Char) : isSubstr n hay = true ↔ SubstrOf n hay := by
  unfold isSubstr SubstrOf
  rw [List.any_eq_true]
  constructor
  · rintro ⟨t, ht, hpre⟩
    obtain ⟨rest, rfl⟩ := (isPre_iff n t).mp hpre
    obtain ⟨l, hl⟩ := (List.mem_tails _ _).mp ht
    exact ⟨l, rest, by rw [← hl]; simp⟩
  · rintro ⟨l, r, rfl⟩
    refine ⟨n ++ r, (List.mem_tails _ _).mpr ⟨l, by simp⟩, ?_⟩
    exact isPre_append_self n r

theorem contains_iff_mem (l : List String) (a : String) : l.contains a = true ↔ a ∈ l := by
  simp [List.contains, List.elem_iff]

theorem insertDesc_perm (r : PromptRecord) :
    ∀ l : List PromptRecord, (insertDesc r l).Perm (r :: l) := by
  intro l
  induction l with
  | nil => exact List.Perm.refl _
  | cons x xs ih =>
    by_cases h : x.updated_at > r.updated_at
    · simp only [insertDesc, if_pos h]
      exact List.Perm.trans (List.Perm.cons x ih) (List.Perm.swap r x xs)
    · simp only [insertDesc, if_neg h]
      exact List.Perm.refl _

theorem sortDesc_perm : ∀ l : List PromptRecord, (sortByUpdatedDesc l).Perm l := by
  intro l
  induction l with
  | nil => exact List.Perm.refl _
  | cons x xs ih =>
    show (insertDesc x (sortByUpdatedDesc xs)).Perm (x :: xs)
    exact List.Perm.trans (insertDesc_perm x (sortByUpdatedDesc xs)) (List.Perm.cons x ih)

theorem insertDesc_sorted (r : PromptRecord) :
    ∀ l : List PromptRecord, l.Pairwise (fun a b => b.updated_at ≤ a.updated_at) →
      (insertDesc r l).Pairwise (fun a b => b.updated_at ≤ a.updated_at) := by
  intro l
  induction l with
  | nil => intro _; simp [insertDesc]
  | cons x xs ih =>
    intro hs
    rw [List.pairwise_cons] at hs
    obtain ⟨hx, hxs⟩ := hs
    by_cases h : x.updated_at > r.updated_at
    · simp only [insertDesc, if_pos h]
      rw [List.pairwise_cons]
      constructor
      · intro y hy
        rcases List.mem_cons.mp ((insertDesc_perm r xs).mem_iff.mp hy) with rfl | hmem
        · exact Nat.le_of_lt h
        · exact hx y hmem
      · exact ih hxs
    · simp only [insertDesc, if_neg h]
      rw [List.pairwise_cons]
      constructor
      · intro y hy
        rcases List.mem_cons.mp hy with rfl | hmem
        · exact Nat.le_of_not_lt h
        · exact Nat.le_trans (hx y hmem) (Nat.le_of_not_lt h)
      · rw [List.pairwise_cons]
        exact ⟨hx, hxs⟩

theorem sortDesc_sorted :
    ∀ l, (sortByUpdatedDesc l).Pairwise (fun a b => b.updated_at ≤ a.updated_at) := by
  intro l
  induction l with
  | nil => simp [sortByUpdatedDesc]
  | cons x xs ih => exact insertDesc_sorted x _ ih

theorem insertDesc_filter_eq (r : PromptRecord) (t : Nat) :
    ∀ l, l.Pairwise (fun a b => b.updated_at ≤ a.updated_at) →
      (insertDesc r l).filter (fun a => a.updated_at == t) =
        (if r.updated_at == t then r :: l.filter (fun a => a.updated_at == t)
         else l.filter (fun a => a.updated_at == t)) := by
  intro l
  induction l with
  | nil =>
    intro _
    by_cases ht : r.updated_at = t <;> simp [insertDesc, List.filter_cons, ht]
  | cons x xs ih =>
    intro hs
    rw [List.pairwise_cons] at hs
    obtain ⟨hx, hxs⟩ := hs
    by_cases h : x.updated_at > r.updated_at
    · by_cases hrt : r.updated_at = t
      · by_cases hxt : x.updated_at = t
        · exfalso
          rw [hrt, hxt] at h
          exact lt_irrefl t h
        · simp only [insertDesc, if_pos h, List.filter_cons, ih hxs]
          simp [hrt, hxt]
      · by_cases hxt : x.updated_at = t
        · simp only [insertDesc, if_pos h, List.filter_cons, ih hxs]
          simp [hrt, hxt]
        · simp only [insertDesc, if_pos h, List.filter_cons, ih hxs]
          simp [hrt, hxt]
    · simp only [insertDesc, if_neg h, List.filter_cons]

theorem sortDesc_filter_eq (t : Nat) :
    ∀ l, (sortByUpdatedDesc l).filter (fun a => a.updated_at == t) =
      l.filter (fun a => a.updated_at == t) := by
  intro l
  induction l with
  | nil => rfl
  | cons x xs ih =>
    show (insertDesc x (sortByUpdatedDesc xs)).filter _ = _
    rw [insertDesc_filter_eq x t _ (sortDesc_sorted xs), List.filter_cons]
    by_cases hxt : x.updated_at = t <;> simp [hxt, ih]

/-- C2: the gallery query returns exactly the records of the collection that match the
search string (case-insensitive substring of the name or the prompt, when non-empty) and
whose tag set contains every filter tag (AND semantics, not OR); the result is sorted
most-recently-updated first, and for every timestamp the records bearing it appear
exactly as in the collection's insertion order (ties broken by insertion order). -/
theorem get_prompts_in_collection_spec (lib : Library) (cid : String) (search : String)
    (tags : List String) (c : Collection) (hcoll : getCollection lib cid = some c) :
    (∀ r, r ∈ get_prompts_in_collection lib cid search tags ↔
      (r ∈ c.prompts ∧
        (search = "" ∨ SubstrOf (lower search.data) (lower r.name.data) ∨
          SubstrOf (lower search.data) (lower r.prompt.data)) ∧
        (∀ t ∈ tags, t ∈ r.tags))) ∧
    (get_prompts_in_collection lib cid search tags).Pairwise
      (fun a b => b.updated_at ≤ a.updated_at) ∧
    (∀ t : Nat, (get_prompts_in_collection lib cid search tags).filter
        (fun a => a.updated_at == t) =
      (c.prompts.filter (fun r => matches_query r search tags)).filter
        (fun a => a.updated_at == t)) := by
  have hres : get_prompts_in_collection lib cid search tags =
      sortByUpdatedDesc (c.prompts.filter (fun r => matches_query r search tags)) := by
    unfold get_prompts_in_collection
    rw [hcoll]
  refine ⟨?_, ?_, ?_⟩
  · intro r
    rw [hres, (sortDesc_perm _).mem_iff, List.mem_filter]
    constructor
    · rintro ⟨h1, h2⟩
      refine ⟨h1, ?_, ?_⟩
      · unfold matches_query at h2
        rw [Bool.and_eq_true] at h2
        have hsearch := h2.1
        rw [Bool.or_eq_true, Bool.or_eq_true] at hsearch
        rcases hsearch with (hs | hs) | hs
        · exact Or.inl (beq_iff_eq.mp hs)
        · exact Or.inr (Or.inl ((isSubstr_iff _ _).mp hs))
        · exact Or.inr (Or.inr ((isSubstr_iff _ _).mp hs))
      · intro t ht
        unfold matches_query at h2
        rw [Bool.and_eq_true] at h2
        exact (contains_iff_mem _ _).mp (List.all_eq_true.mp h2.2 t ht)
    · rintro ⟨h1, h2, h3⟩
      refine ⟨h1, ?_⟩
      unfold matches_query
      rw [Bool.and_eq_true]
      constructor
      · rw [Bool.or_eq_true, Bool.or_eq_true]
        rcases h2 with hs | hs | hs
        · exact Or.inl (Or.inl (beq_iff_eq.mpr hs))
        · exact Or.inl (Or.inr ((isSubstr_iff _ _).mpr hs))
        · exact Or.inr ((isSubstr_iff _ _).mpr hs)
      · rw [List.all_eq_true]
        intro t ht
        exact (contains_iff_mem _ _).mpr (h3 t ht)
  · rw [hres]
    exact sortDesc_sorted _
  · intro t
    rw [hres]
    exact sortDesc_filter_eq t _

theorem get_prompts_in_collection_spec_witness :
    getCollection (Library.mk [Collection.mk "all" "All"
        [PromptRecord.mk "s1" "Sunset Beach" "x" "" [] [] 0 0 5,
         PromptRecord.mk "s2" "Forest Path" "y" "" [] [] 0 0 4]] []) "all" =
      some (Collection.mk "all" "All"
        [PromptRecord.mk "s1" "Sunset Beach" "x" "" [] [] 0 0 5,
         PromptRecord.mk "s2" "Forest Path" "y" "" [] [] 0 0 4]) ∧
    (get_prompts_in_collection (Library.mk [Collection.mk "all" "All"
        [PromptRecord.mk "s1" "Sunset Beach" "x" "" [] [] 0 0 5,
         PromptRecord.mk "s2" "Forest Path" "y" "" [] [] 0 0 4]] []) "all" "beach" []).filter
      (fun a => a.updated_at == 5) =
    ((Collection.mk "all" "All"
        [PromptRecord.mk "s1" "Sunset Beach" "x" "" [] [] 0 0 5,
         PromptRecord.mk "s2" "Forest Path" "y" "" [] [] 0 0 4]).prompts.filter
      (fun r => matches_query r "beach" [])).filter (fun a => a.updated_at == 5) := by
  refine ⟨by decide, ?_⟩
  exact (get_prompts_in_collection_spec (Library.mk [Collection.mk "all" "All"
    [PromptRecord.mk "s1" "Sunset Beach" "x" "" [] [] 0 0 5,
     PromptRecord.mk "s2" "Forest Path" "y" "" [] [] 0 0 4]] []) "all" "beach" []
    (Collection.mk "all" "All"
      [PromptRecord.mk "s1" "Sunset Beach" "x" "" [] [] 0 0 5,
       PromptRecord.mk "s2" "Forest Path" "y" "" [] [] 0 0 4]) (by decide)).2.2 5

theorem hasKey_update {α β : Type} [DecidableEq α] (m : List (α × β)) (k k' : α) (v : β) :
    hasKey (updateA m k v) k' = (hasKey m k' || decide (k = k')) := by
  by_cases h : hasKey m k = true
  · rw [hasKey_update_present m k k' v h]
    by_cases h' : k = k'
    · subst h'
      simp [h]
    · simp [h']
  · rw [updateA, if_neg h]
    simp [hasKey, List.any_append]

theorem hasKey_applySaved (saved : Settings) :
    ∀ (st : Settings) (k : String), hasKey (applySaved saved st) k = hasKey st k := by
  induction saved with
  | nil => intro st k; rfl
  | cons kv rest ih =>
    intro st k
    show hasKey (applySaved rest (if hasKey st kv.1 then updateA st kv.1 kv.2 else st)) k = _
    by_cases h : hasKey st kv.1 = true
    · rw [if_pos h, ih, hasKey_update_present st kv.1 k kv.2 h]
    · rw [if_neg h, ih]

theorem lookupA_applySaved_not_mem (saved : Settings) :
    ∀ (st : Settings) (k : String), (∀ p ∈ saved, p.1 ≠ k) →
      lookupA (applySaved saved st) k = lookupA st k := by
  induction saved with
  | nil => intro st k _; rfl
  | cons kv rest ih =>
    intro st k hk
    show lookupA (applySaved rest (if hasKey st kv.1 then updateA st kv.1 kv.2 else st)) k = _
    rw [ih _ k (fun p hp => hk p (List.mem_cons_of_mem _ hp))]
    by_cases h : hasKey st kv.1 = true
    · rw [if_pos h, lookupA_update]
      rw [if_neg (fun he => hk kv (List.mem_cons_self _ _) he.symm)]
    · rw [if_neg h]

theorem lookupA_applySaved_mem (saved : Settings) :
    ∀ (st : Settings) (k : String) (v : JVal),
      (saved.map Prod.fst).Nodup → (k, v) ∈ saved → hasKey st k = true →
      lookupA (applySaved saved st) k = some v := by
  induction saved with
  | nil => intro st k v _ hmem _; simp at hmem
  | cons kv rest ih =>
    intro st k v hnd hmem hkey
    obtain ⟨k1, v1⟩ := kv
    rw [List.map_cons, List.nodup_cons] at hnd
    obtain ⟨hnotin, hnd'⟩ := hnd
    rcases List.mem_cons.mp hmem with heq | hmem'
    · injection heq with hk hv
      subst hk
      subst hv
      show lookupA (applySaved rest (if hasKey st k then updateA st k v else st)) k = some v
      have hrest : ∀ p ∈ rest, p.1 ≠ k := by
        intro p hp he
        exact hnotin (List.mem_map.mpr ⟨p, hp, he⟩)
      rw [lookupA_applySaved_not_mem rest _ k hrest, if_pos hkey, lookupA_update]
      simp
    · have hkmem : k ∈ rest.map Prod.fst := List.mem_map.mpr ⟨(k, v), hmem', rfl⟩
      have hk1 : k1 ≠ k := fun he => hnotin (he ▸ hkmem)
      show lookupA (applySaved rest (if hasKey st k1 then updateA st k1 v1 else st)) k = some v
      have hkey' : hasKey (if hasKey st k1 then updateA st k1 v1 else st) k = true := by
        by_cases h : hasKey st k1 = true
        · rw [if_pos h, hasKey_update_present st k1 k v1 h]
          exact hkey
        · rw [if_neg h]
          exact hkey
      exact ih _ k v hnd' hmem' hkey'

theorem hasKey_upo (settings : Settings) (rec : PromptRecord) (vars k : String) :
    hasKey (use_prompt_only_settings settings rec vars) k =
      (hasKey settings k || decide ("prompt" = k) ||
        (decide (rec.negative_prompt ≠ "") && decide ("negative_prompt" = k))) := by
  simp only [use_prompt_only_settings]
  by_cases h : rec.negative_prompt ≠ ""
  · rw [if_pos h, hasKey_update, hasKey_update]
    simp [h, Bool.or_assoc]
  · rw [if_neg h, hasKey_update]
    simp [h]

theorem lookupA_upo_other (settings : Settings) (rec : PromptRecord) (vars k : String)
    (hk1 : k ≠ "prompt") (hk2 : k ≠ "negative_prompt") :
    lookupA (use_prompt_only_settings settings rec vars) k = lookupA settings k := by
  simp only [use_prompt_only_settings]
  by_cases h : rec.negative_prompt ≠ ""
  · rw [if_pos h, lookupA_update, if_neg hk2, lookupA_update, if_neg hk1]
  · rw [if_neg h, lookupA_update, if_neg hk1]

/-- C9: applying a saved prompt with its settings never adds generation-parameter keys
to the host settings: every key of the result was already present or is "prompt" or
"negative_prompt"; a saved key absent from the current settings is silently ignored
(the result still lacks it); every key outside the saved keys and the two prompt keys
keeps its exact value; and a saved key present in the current settings receives the
saved value. -/
theorem use_with_settings_frame (settings : Settings) (rec : PromptRecord)
    (vars : String) (hnd : (rec.settings.map Prod.fst).Nodup) :
    (∀ k, hasKey (use_with_settings_update settings rec vars) k = true →
      hasKey settings k = true ∨ k = "prompt" ∨ k = "negative_prompt") ∧
    (∀ k, k ≠ "prompt" → k ≠ "negative_prompt" → hasKey settings k = false →
      hasKey (use_with_settings_update settings rec vars) k = false) ∧
    (∀ k, k ≠ "prompt" → k ≠ "negative_prompt" → (∀ p ∈ rec.settings, p.1 ≠ k) →
      lookupA (use_with_settings_update settings rec vars) k = lookupA settings k) ∧
    (∀ k v, k ≠ "prompt" → k ≠ "negative_prompt" → (k, v) ∈ rec.settings →
      hasKey settings k = true →
      lookupA (use_with_settings_update settings rec vars) k = some v) := by
  refine ⟨?_, ?_, ?_, ?_⟩
  · intro k hk
    rw [use_with_settings_update, hasKey_applySaved, hasKey_upo] at hk
    simp only [Bool.or_eq_true, Bool.and_eq_true, decide_eq_true_eq] at hk
    rcases hk with (h | h) | ⟨_, h⟩
    · exact Or.inl h
    · exact Or.inr (Or.inl h.symm)
    · exact Or.inr (Or.inr h.symm)
  · intro k h1 h2 h3
    rw [use_with_settings_update, hasKey_applySaved, hasKey_upo]
    have hp : ¬ ("prompt" = k) := fun he => h1 he.symm
    have hnp : ¬ ("negative_prompt" = k) := fun he => h2 he.symm
    simp [h3, hp, hnp]
  · intro k h1 h2 hno
    rw [use_with_settings_update, lookupA_applySaved_not_mem _ _ _ hno]
    exact lookupA_upo_other settings rec vars k h1 h2
  · intro k v h1 h2 hmem hkey
    rw [use_with_settings_update]
    apply lookupA_applySaved_mem _ _ _ _ hnd hmem
    rw [hasKey_upo]
    simp [hkey]

theorem use_with_settings_frame_witness :
    ((PromptRecord.mk "r1" "n" "p" "" [] [("steps", JVal.n 30), ("seed", JVal.n 5)]
        0 0 0).settings.map Prod.fst).Nodup ∧
    lookupA (use_with_settings_update
        [("negative_prompt", JVal.s "Y"), ("steps", JVal.n 20)]
        (PromptRecord.mk "r1" "n" "p" "" [] [("steps", JVal.n 30), ("seed", JVal.n 5)]
          0 0 0) "") "steps" = some (JVal.n 30) ∧
    hasKey (use_with_settings_update
        [("negative_prompt", JVal.s "Y"), ("steps", JVal.n 20)]
        (PromptRecord.mk "r1" "n" "p" "" [] [("steps", JVal.n 30), ("seed", JVal.n 5)]
          0 0 0) "") "seed" = false := by
  refine ⟨by decide, ?_, ?_⟩
  · exact (use_with_settings_frame [("negative_prompt", JVal.s "Y"), ("steps", JVal.n 20)]
      (PromptRecord.mk "r1" "n" "p" "" [] [("steps", JVal.n 30), ("seed", JVal.n 5)] 0 0 0)
      "" (by decide)).2.2.2 "steps" (JVal.n 30) (by decide) (by decide) (by decide)
      (by decide)
  · exact (use_with_settings_frame [("negative_prompt", JVal.s "Y"), ("steps", JVal.n 20)]
      (PromptRecord.mk "r1" "n" "p" "" [] [("steps", JVal.n 30), ("seed", JVal.n 5)] 0 0 0)
      "" (by decide)).2.1 "seed" (by decide) (by decide) (by decide)

/-! ## Claim C10 -/

/-- C10 counterexample: a record whose own negative prompt is empty but whose saved
settings mapping contains a "negative_prompt" key makes `_use_with_settings` overwrite
the host's existing negative prompt through the saved-settings loop, so the entry does
not stay unchanged. -/
theorem negative_prompt_overwrite_counterexample :
    (PromptRecord.mk "r1" "n" "p" "" [] [("negative_prompt", JVal.s "X")]
      0 0 0).negative_prompt = "" ∧
    lookupA (use_with_settings_update [("negative_prompt", JVal.s "Y")]
        (PromptRecord.mk "r1" "n" "p" "" [] [("negative_prompt", JVal.s "X")] 0 0 0) "")
      "negative_prompt" = some (JVal.s "X") ∧
    lookupA [(("negative_prompt" : String), JVal.s "Y")] "negative_prompt" =
      some (JVal.s "Y") :=
  ⟨rfl, by decide, by decide⟩

/-- C10 (amended): when the record's negative prompt is empty or missing,
`_use_prompt_only` always leaves the host settings' "negative_prompt" entry unchanged,
and `_use_with_settings` leaves it unchanged provided the record's saved settings
mapping does not itself contain a "negative_prompt" key. -/
theorem negative_prompt_preserved_amended (settings : Settings) (rec : PromptRecord)
    (vars : String) (hneg : rec.negative_prompt = "") :
    lookupA (use_prompt_only_settings settings rec vars) "negative_prompt" =
      lookupA settings "negative_prompt" ∧
    ((∀ p ∈ rec.settings, p.1 ≠ "negative_prompt") →
      lookupA (use_with_settings_update settings rec vars) "negative_prompt" =
        lookupA settings "negative_prompt") := by
  have h1 : use_prompt_only_settings settings rec vars =
      updateA settings "prompt" (JVal.s (substitute_variables rec.prompt vars)) := by
    simp only [use_prompt_only_settings]
    rw [if_neg (by simp [hneg])]
  constructor
  · rw [h1, lookupA_update]
    rw [if_neg (by decide)]
  · intro hno
    rw [use_with_settings_update, lookupA_applySaved_not_mem _ _ _ hno, h1, lookupA_update]
    rw [if_neg (by decide)]

theorem negative_prompt_preserved_amended_witness :
    (PromptRecord.mk "r1" "n" "p" "" [] [("steps", JVal.n 1)] 0 0 0).negative_prompt
      = "" ∧
    lookupA (use_prompt_only_settings [("negative_prompt", JVal.s "Y")]
        (PromptRecord.mk "r1" "n" "p" "" [] [("steps", JVal.n 1)] 0 0 0) "v=1")
      "negative_prompt" = some (JVal.s "Y") ∧
    lookupA (use_with_settings_update [("negative_prompt", JVal.s "Y")]
        (PromptRecord.mk "r1" "n" "p" "" [] [("steps", JVal.n 1)] 0 0 0) "v=1")
      "negative_prompt" = some (JVal.s "Y") := by
  have h := negative_prompt_preserved_amended [("negative_prompt", JVal.s "Y")]
    (PromptRecord.mk "r1" "n" "p" "" [] [("steps", JVal.n 1)] 0 0 0) "v=1" rfl
  exact ⟨rfl, h.1.trans (by decide), (h.2 (by decide)).trans (by decide)⟩
